import Mathlib

/-!
Shallow embedding of the cliquet PostgreSQL storage backend
(`cliquet/storage/postgresql/__init__.py`), together with theorems that
check the specification claims about it.

Modelling choices:

* JSON scalar values are the type `Val`; record payloads are ordered
  association lists (Python dicts keep insertion order).
* The two tables `records` and `deleted` are lists of rows; a `State`
  also carries a counter `clock` standing for the database-side monotonic
  timestamp source (the trigger assigning `last_modified` lives in
  `schema.sql`, which is not among the sources, so it is modelled from
  the spec: every write stores `clock + 1` and advances the counter).
* SQL fragments rendered by the `_format_*` helpers are modelled twice:
  once as the literal text with placeholders (for the claims about the
  rendering itself) and once by their evaluation on rows (`evalCondition`
  and friends), which the CRUD operations use.
-/

instance exceptDecEq {ε α : Type} [DecidableEq ε] [DecidableEq α] :
    DecidableEq (Except ε α) := fun x y =>
  match x, y with
  | .ok a, .ok b =>
      if h : a = b then .isTrue (by rw [h]) else .isFalse (by simp [h])
  | .error e, .error f =>
      if h : e = f then .isTrue (by rw [h]) else .isFalse (by simp [h])
  | .ok _, .error _ => .isFalse (by simp)
  | .error _, .ok _ => .isFalse (by simp)

namespace Cliquet

/-- A JSON scalar value stored in a record payload.  Array and object
    values are not needed by any operation modelled here. -/
inductive Val where
  | vStr (s : String)
  | vInt (n : Int)
  | vBool (b : Bool)
  | vNull
  deriving DecidableEq, Repr

/-- A record payload: a JSON object as an ordered association list. -/
abbrev RecordData := List (String × Val)

/-- Python dict assignment `record[k] = v`: overwrite in place when the
    key exists (keeping its position), append otherwise. -/
def setField (k : String) (v : Val) : RecordData → RecordData
  | [] => [(k, v)]
  | (k₀, v₀) :: rest => if k₀ = k then (k, v) :: rest else (k₀, v₀) :: setField k v rest

/-- The slice of the resource object read by the backend: `resource.name`,
    `resource.id_field`, `resource.modified_field`,
    `resource.deleted_field` and the `unique_fields` option of its
    mapping. -/
structure Resource where
  name : String
  idField : String
  modifiedField : String
  deletedField : String
  uniqueFields : List String
  deriving DecidableEq, Repr

/-- A row of the `records` table. -/
structure Row where
  id : String
  userId : String
  resourceName : String
  data : RecordData
  lastModified : Nat
  deriving DecidableEq, Repr

/-- A row of the `deleted` table (a tombstone: key and timestamp, no
    payload). -/
structure Tomb where
  id : String
  userId : String
  resourceName : String
  lastModified : Nat
  deriving DecidableEq, Repr

/-- The database state behind the backend.  Modelled from the spec: the
    timestamp trigger of `schema.sql` (not among the sources) makes
    `last_modified` strictly increase on every write, modelled here by the
    counter `clock`. -/
structure State where
  records : List Row
  deleted : List Tomb
  clock : Nat
  deriving DecidableEq, Repr

/-- Modelled from the spec: the abstract comparison-operator set
    (`COMPARISON` of `cliquet.utils`, a file not among the sources).  The
    spec lists equals, not-equals, less-than, greater-than, less-or-equal
    and greater-or-equal, each carrying a comparison token valid in the
    target query language. -/
inductive COMPARISON where
  | EQ | NOT | LT | GT | MIN | MAX
  deriving DecidableEq, Repr

/-- The token each abstract operator carries (its enum value). -/
def compToken : COMPARISON → String
  | .EQ => "=="
  | .NOT => "!="
  | .LT => "<"
  | .GT => ">"
  | .MIN => ">="
  | .MAX => "<="

/-- The `operators` lookup with default of `_format_conditions`
    (lines 533-536 and 562): equals and not-equals are translated to the
    SQL `=` and `<>`, every other operator token is passed through
    unchanged. -/
def sqlOpToken : COMPARISON → String
  | .EQ => "="
  | .NOT => "<>"
  | op => compToken op

/-- `cliquet.storage.Filter`: `(field, value, operator)`. -/
structure Filtr where
  field : String
  value : Val
  op : COMPARISON
  deriving DecidableEq, Repr

/-- A sort specification `(field, direction)`, direction positive for
    ascending. -/
structure SortSpec where
  field : String
  direction : Int
  deriving DecidableEq, Repr

/-- Field resolution shared by the renderers (the if/elif/else of
    `_format_conditions` and `_format_sorting`): the identity column, the
    modification-timestamp column, or a payload field. -/
inductive FieldShape where
  | idCol | modCol | payload
  deriving DecidableEq, Repr

def shapeOf (res : Resource) (field : String) : FieldShape :=
  if field == res.idField then .idCol
  else if field == res.modifiedField then .modCol
  else .payload

/-- Serialization of a non-string scalar to its canonical JSON text with
    surrounding quotes stripped (line 556). -/
def dumpsStrip : Val → String
  | .vStr s => s
  | .vInt n => toString n
  | .vBool b => if b then "true" else "false"
  | .vNull => "null"

/-- The JSONB text extraction `data->>field` applied to a stored scalar:
    SQL NULL (`none`) for a JSON null, the text of the value otherwise. -/
def extractText : Val → Option String
  | .vStr s => some s
  | .vInt n => some (toString n)
  | .vBool b => some (if b then "true" else "false")
  | .vNull => none

/-- Text comparison under an operator token (SQL text comparison,
    modelled with the code-point order of `Ord String`). -/
def evalOpText (op : COMPARISON) (a b : String) : Bool :=
  match op with
  | .EQ => a == b
  | .NOT => a != b
  | .LT => compare a b == .lt
  | .GT => compare a b == .gt
  | .MIN => compare a b != .lt
  | .MAX => compare a b != .gt

/-- Integer comparison under an operator token. -/
def evalOpInt (op : COMPARISON) (a b : Int) : Bool :=
  match op with
  | .EQ => a == b
  | .NOT => a != b
  | .LT => decide (a < b)
  | .GT => decide (b < a)
  | .MIN => decide (b ≤ a)
  | .MAX => decide (a ≤ b)

/-- A row as the query fragments of `get_all` see it: the `id` column,
    the epoch timestamp, and a payload (for tombstone rows the synthetic
    payload of the `fake_deleted` CTE). -/
structure QRow where
  id : String
  lastModified : Nat
  data : RecordData
  deriving DecidableEq, Repr

/-- The bound comparison value as text, as the driver sends it. -/
def textOfBound : Val → String
  | .vStr s => s
  | v => dumpsStrip v

/-- Meaning of one rendered comparison of `_format_conditions` on one
    row: `id <op> value`, `as_epoch(last_modified) <op> value`, or
    `coalesce(data->>field, empty) <op> value` with a non-string value
    serialized to canonical text (lines 540-564). -/
def evalCondition (res : Resource) (q : QRow) (f : Filtr) : Bool :=
  match shapeOf res f.field with
  | .idCol => evalOpText f.op q.id (textOfBound f.value)
  | .modCol =>
      match f.value with
      | .vInt n => evalOpInt f.op (Int.ofNat q.lastModified) n
      | _ => false
  | .payload =>
      let lhs := ((q.data.lookup f.field).bind extractText).getD ""
      let rhs := match f.value with
        | .vStr s => s
        | v => dumpsStrip v
      evalOpText f.op lhs rhs

/-- An AND-joined condition list holds on a row; an empty list means the
    clause is absent and every row passes. -/
def condsHold (res : Resource) (filters : List Filtr) (q : QRow) : Bool :=
  filters.all (evalCondition res q)

def liveQRow (r : Row) : QRow := ⟨r.id, r.lastModified, r.data⟩

/-- Tombstone rows enter `get_all` cross-joined with the synthetic
    `fake_deleted` payload mapping the deleted field to true
    (lines 440-450 and 468). -/
def tombQRow (res : Resource) (t : Tomb) : QRow :=
  ⟨t.id, t.lastModified, [(res.deletedField, Val.vBool true)]⟩

/-- The key condition `id = .. AND user_id = .. AND resource_name = ..`
    shared by `get`, `update` and `delete`. -/
def keyMatch (rid u rname : String) (r : Row) : Bool :=
  r.id == rid && r.userId == u && r.resourceName == rname

/-- The WHERE clause of the filtered queries on a live row. -/
def rowMatches (res : Resource) (u : String) (filters : List Filtr) (r : Row) : Bool :=
  r.userId == u && r.resourceName == res.name && condsHold res filters (liveQRow r)

/-- The WHERE clause of `filtered_deleted` on a tombstone row. -/
def tombMatches (res : Resource) (u : String) (filters : List Filtr) (t : Tomb) : Bool :=
  t.userId == u && t.resourceName == res.name && condsHold res filters (tombQRow res t)

/-- The storage error taxonomy the callers see. -/
inductive StorageErr where
  | notFound (rid : String)
  | unicity (field : String) (existing : RecordData)
  | backend
  deriving DecidableEq, Repr

/-- `PostgreSQL.get` (lines 286-307). -/
def get (res : Resource) (u rid : String) (s : State) : Except StorageErr RecordData :=
  match s.records.find? (keyMatch rid u res.name) with
  | none => .error (.notFound rid)
  | some row =>
      .ok (setField res.modifiedField (.vInt (row.lastModified : Int))
            (setField res.idField (.vStr rid) row.data))

/-- Python truthiness of a scalar, for the `if record_id:` test of
    `_check_unicity` (line 671). -/
def truthy : Val → Bool
  | .vStr s => s != ""
  | .vInt n => n != 0
  | .vBool b => b
  | .vNull => false

/-- Whether `record.get(field)` is Python `None`: key absent or JSON
    null. -/
def isNoneVal : Option Val → Bool
  | none => true
  | some .vNull => true
  | some _ => false

/-- Whether a scalar is a string (the `isinstance(.., string_types)`
    test of line 555). -/
def isStringVal : Val → Bool
  | .vStr _ => true
  | _ => false

/-- The unique fields that the candidate record carries with a non-null
    value; only these become query conditions (lines 651-655). -/
def candUniqueFields (res : Resource) (record : RecordData) : List String :=
  res.uniqueFields.filter (fun f => !(isNoneVal (record.lookup f)))

/-- The identity-exclusion condition of `_check_unicity` (lines 669-678):
    when the candidate carries a truthy identity, other rows must satisfy
    `id <> record_id`; otherwise the condition is TRUE. -/
def unicityExclusion (res : Resource) (record : RecordData) (row : Row) : Bool :=
  match record.lookup res.idField with
  | some v =>
      if truthy v then evalCondition res (liveQRow row) ⟨res.idField, v, .NOT⟩ else true
  | none => true

/-- The full WHERE clause of the unicity probe, evaluated on one row. -/
def unicityCond (res : Resource) (u : String) (record : RecordData) (row : Row) : Bool :=
  row.userId == u && row.resourceName == res.name
    && (candUniqueFields res record).any
        (fun f => evalCondition res (liveQRow row) ⟨f, (record.lookup f).getD .vNull, .EQ⟩)
    && unicityExclusion res record row

/-- `PostgreSQL._check_unicity` (lines 629-684).  `none` means no
    violation; `some (field, existing)` is the raised `UnicityError`,
    whose `field` is the loop variable left at the last unique field and
    whose `existing` is the conflicting record materialized through
    `get`. -/
def _check_unicity (res : Resource) (u : String) (record : RecordData) (s : State) :
    Option (String × RecordData) :=
  if res.uniqueFields.isEmpty then none
  else if (candUniqueFields res record).isEmpty then none
  else
    match s.records.find? (unicityCond res u record) with
    | none => none
    | some row =>
        let existing := match get res u row.id s with
          | .ok r => r
          | .error _ => []
        some (res.uniqueFields.getLastD "", existing)

/-- `PostgreSQL.create` (lines 263-284).  `genId` stands for the value
    produced by `resource.id_generator()`.  Modelled from the spec: the
    records table is keyed by `(id, tenant, resource)`, so inserting an
    existing key fails at the database level and surfaces as a backend
    error. -/
def create (res : Resource) (u genId : String) (record : RecordData) (s : State) :
    Except StorageErr (State × RecordData) :=
  match _check_unicity res u record s with
  | some (f, existing) => .error (.unicity f existing)
  | none =>
      if s.records.any (keyMatch genId u res.name) then .error .backend
      else
        .ok (⟨s.records ++ [⟨genId, u, res.name, record, s.clock + 1⟩],
              s.deleted, s.clock + 1⟩,
             setField res.modifiedField (.vInt ((s.clock + 1 : Nat) : Int))
               (setField res.idField (.vStr genId) record))

/-- `PostgreSQL.update` (lines 309-349): check unicity, probe whether the
    identity exists, then INSERT or UPDATE accordingly; the returned
    record is a copy of the input with identity and timestamp set. -/
def update (res : Resource) (u rid : String) (record : RecordData) (s : State) :
    Except StorageErr (State × RecordData) :=
  match _check_unicity res u record s with
  | some (f, existing) => .error (.unicity f existing)
  | none =>
      if s.records.any (keyMatch rid u res.name) then
        .ok (⟨s.records.map (fun r =>
                if keyMatch rid u res.name r then
                  ⟨r.id, r.userId, r.resourceName, record, s.clock + 1⟩
                else r),
              s.deleted, s.clock + 1⟩,
             setField res.modifiedField (.vInt ((s.clock + 1 : Nat) : Int))
               (setField res.idField (.vStr rid) record))
      else
        .ok (⟨s.records ++ [⟨rid, u, res.name, record, s.clock + 1⟩],
              s.deleted, s.clock + 1⟩,
             setField res.modifiedField (.vInt ((s.clock + 1 : Nat) : Int))
               (setField res.idField (.vStr rid) record))

/-- `PostgreSQL.delete` (lines 351-381): one statement deletes the row
    and inserts its tombstone, whose timestamp is assigned at that same
    transition; zero affected rows raise not-found. -/
def delete (res : Resource) (u rid : String) (s : State) :
    Except StorageErr (State × RecordData) :=
  match s.records.find? (keyMatch rid u res.name) with
  | none => .error (.notFound rid)
  | some _ =>
      .ok (⟨s.records.filter (fun r => !(keyMatch rid u res.name r)),
            s.deleted ++ [⟨rid, u, res.name, s.clock + 1⟩],
            s.clock + 1⟩,
           setField res.deletedField (.vBool true)
             (setField res.idField (.vStr rid)
               (setField res.modifiedField (.vInt ((s.clock + 1 : Nat) : Int)) [])))

/-- The tombstones produced by the bulk delete, each assigned the next
    timestamp. -/
def assignTombs (res : Resource) (u : String) : List Row → Nat → List Tomb
  | [], _ => []
  | r :: rest, c => ⟨r.id, u, res.name, c + 1⟩ :: assignTombs res u rest (c + 1)

/-- `PostgreSQL.delete_all` (lines 383-420): the single statement deletes
    every matching row and tombstones each of them; only
    `fetchmany(max_fetch_size)` bounds the list that is returned. -/
def delete_all (res : Resource) (u : String) (filters : List Filtr)
    (maxFetchSize : Nat) (s : State) : State × List RecordData :=
  let matching := s.records.filter (rowMatches res u filters)
  let newTombs := assignTombs res u matching s.clock
  (⟨s.records.filter (fun r => !(rowMatches res u filters r)),
    s.deleted ++ newTombs,
    s.clock + matching.length⟩,
   (newTombs.take maxFetchSize).map (fun t =>
     setField res.modifiedField (.vInt (t.lastModified : Int))
       (setField res.idField (.vStr t.id)
         (setField "deleted" (.vBool true) []))))

/-- The `total_filtered` CTE of `get_all` (lines 425-431): the count of
    live records matching the filters, with no pagination window and no
    fetch-size cap. -/
def totalFiltered (res : Resource) (u : String) (filters : List Filtr) (s : State) : Nat :=
  (s.records.filter (rowMatches res u filters)).length

/-- The `collection_filtered` CTE (lines 432-439): matching live rows,
    capped at `max_fetch_size`. -/
def collectionFiltered (res : Resource) (u : String) (filters : List Filtr)
    (maxFetchSize : Nat) (s : State) : List Row :=
  (s.records.filter (rowMatches res u filters)).take maxFetchSize

/-- The `filtered_deleted` CTE (lines 443-450): matching tombstones with
    the synthetic payload, or nothing at all under `LIMIT 0` when deleted
    records are not included. -/
def filteredDeleted (res : Resource) (u : String) (filters : List Filtr)
    (includeDeleted : Bool) (s : State) : List QRow :=
  if includeDeleted then
    (s.deleted.filter (tombMatches res u filters)).map (tombQRow res)
  else []

/-- The `all_records` CTE (lines 451-455): tombstones then live rows. -/
def allRecords (res : Resource) (u : String) (filters : List Filtr)
    (maxFetchSize : Nat) (includeDeleted : Bool) (s : State) : List QRow :=
  filteredDeleted res u filters includeDeleted s
    ++ (collectionFiltered res u filters maxFetchSize s).map liveQRow

/-- The pagination WHERE clause (lines 456-460 and 492-495): absent when
    no rule is given, otherwise the OR of the AND-joined rules. -/
def pagMatch (res : Resource) (rules : List (List Filtr)) (q : QRow) : Bool :=
  match rules with
  | [] => true
  | _ => rules.any (fun rule => condsHold res rule q)

/-- The `paginated_records` CTE joined back with `all_records`
    (lines 456-463): the rows whose id appears among the distinct ids
    satisfying the pagination rules. -/
def joinedRows (res : Resource) (u : String) (filters : List Filtr)
    (maxFetchSize : Nat) (includeDeleted : Bool) (rules : List (List Filtr))
    (s : State) : List QRow :=
  let base := allRecords res u filters maxFetchSize includeDeleted s
  let pagIds := (base.filter (pagMatch res rules)).map QRow.id
  base.filter (fun q => pagIds.contains q.id)

/-- A sort key, as ORDER BY sees it: SQL NULL, text, or a number. -/
inductive SortKey where
  | kNull
  | kStr (s : String)
  | kNum (n : Int)
  deriving DecidableEq, Repr

/-- Key comparison with the PostgreSQL default null ordering: NULL sorts
    as largest under ASC.  Mixed text/number keys cannot arise from one
    column and are ordered arbitrarily. -/
def cmpKey : SortKey → SortKey → Ordering
  | .kNull, .kNull => .eq
  | .kNull, _ => .gt
  | _, .kNull => .lt
  | .kStr a, .kStr b => compare a b
  | .kNum a, .kNum b => compare a b
  | .kStr _, .kNum _ => .lt
  | .kNum _, .kStr _ => .gt

/-- The ORDER BY key of one sort specification on one row: the id column,
    the timestamp column, or the (uncoalesced) JSON text extraction. -/
def sortKeyOf (res : Resource) (sp : SortSpec) (q : QRow) : SortKey :=
  match shapeOf res sp.field with
  | .idCol => .kStr q.id
  | .modCol => .kNum (q.lastModified : Int)
  | .payload =>
      match (q.data.lookup sp.field).bind extractText with
      | some s => .kStr s
      | none => .kNull

/-- Lexicographic row comparison along the ORDER BY list; a descending
    direction flips the ordering of its key (DESC, with NULLS FIRST as
    the PostgreSQL default flip). -/
def cmpRows (res : Resource) : List SortSpec → QRow → QRow → Ordering
  | [], _, _ => .eq
  | sp :: rest, a, b =>
      let o := cmpKey (sortKeyOf res sp a) (sortKeyOf res sp b)
      let od := if sp.direction > 0 then o else o.swap
      match od with
      | .eq => cmpRows res rest a b
      | x => x

/-- Insertion into a sorted list, used to model ORDER BY. -/
def insertLe {α : Type} (le : α → α → Bool) (a : α) : List α → List α
  | [] => [a]
  | b :: bs => if le a b then a :: b :: bs else b :: insertLe le a bs

/-- Stable insertion sort, used to model ORDER BY. -/
def sortLe {α : Type} (le : α → α → Bool) : List α → List α
  | [] => []
  | a :: rest => insertLe le a (sortLe le rest)

def rowLe (res : Resource) (sorting : List SortSpec) (a b : QRow × Nat) : Bool :=
  cmpRows res sorting a.1 b.1 != .gt

/-- The `LIMIT` clause of `get_all` (lines 497-499): only a truthy
    `limit` adds one. -/
def getAllLimited (limit : Option Nat) (xs : List (QRow × Nat)) : List (QRow × Nat) :=
  match limit with
  | none => xs
  | some l => if l == 0 then xs else xs.take l

/-- The page of SQL result rows that `fetchmany(max_fetch_size)` hands
    back to `get_all`, each row paired with the `count_total` column it
    carries from the cross join with `total_filtered`. -/
def pageRows (res : Resource) (u : String) (filters : List Filtr)
    (sorting : List SortSpec) (rules : List (List Filtr)) (limit : Option Nat)
    (includeDeleted : Bool) (maxFetchSize : Nat) (s : State) : List (QRow × Nat) :=
  let joined := joinedRows res u filters maxFetchSize includeDeleted rules s
  let withCount := joined.map (fun q => (q, totalFiltered res u filters s))
  let sorted := match sorting with
    | [] => withCount
    | _ => sortLe (rowLe res sorting) withCount
  (getAllLimited limit sorted).take maxFetchSize

/-- `PostgreSQL.get_all` (lines 422-517): on an empty page the Python
    code returns `([], 0)`; otherwise it materializes the page and reads
    the total count off the first result row. -/
def get_all (res : Resource) (u : String) (filters : List Filtr)
    (sorting : List SortSpec) (rules : List (List Filtr)) (limit : Option Nat)
    (includeDeleted : Bool) (maxFetchSize : Nat) (s : State) :
    List RecordData × Nat :=
  match pageRows res u filters sorting rules limit includeDeleted maxFetchSize s with
  | [] => ([], 0)
  | (q₀, c₀) :: rest =>
      (((q₀, c₀) :: rest).map (fun p =>
        setField res.modifiedField (.vInt (p.1.lastModified : Int))
          (setField res.idField (.vStr p.1.id) p.1.data)), c₀)

/-- The bound value for one filter (lines 554-560): values of payload
    fields that are not strings are serialized to canonical text before
    being bound. -/
def boundValue (res : Resource) (f : Filtr) : Val :=
  match shapeOf res f.field with
  | .payload =>
      match f.value with
      | .vStr s => .vStr s
      | v => .vStr (dumpsStrip v)
  | _ => f.value

/-- Loop body of `_format_conditions` (lines 540-564): the SQL text of
    comparison number `i`. -/
def condSql (res : Resource) (pfx : String) (i : Nat) (f : Filtr) : String :=
  (match shapeOf res f.field with
   | .idCol => "id"
   | .modCol => "as_epoch(last_modified)"
   | .payload => "coalesce(data->>%(" ++ pfx ++ "_field_" ++ toString i ++ ")s, '')")
  ++ " " ++ sqlOpToken f.op ++ " %(" ++ pfx ++ "_value_" ++ toString i ++ ")s"

/-- Loop body of `_format_conditions`: the placeholders bound for
    comparison number `i` (the field name itself only for payload
    fields). -/
def condHolders (res : Resource) (pfx : String) (i : Nat) (f : Filtr) :
    List (String × Val) :=
  (match shapeOf res f.field with
   | .payload => [(pfx ++ "_field_" ++ toString i, Val.vStr f.field)]
   | _ => [])
  ++ [(pfx ++ "_value_" ++ toString i, boundValue res f)]

def formatConditionsAux (res : Resource) (pfx : String) :
    Nat → List Filtr → List String × List (String × Val)
  | _, [] => ([], [])
  | i, f :: rest =>
      let tail := formatConditionsAux res pfx (i + 1) rest
      (condSql res pfx i f :: tail.1, condHolders res pfx i f ++ tail.2)

/-- `PostgreSQL._format_conditions` (lines 519-567): one comparison per
    filter, joined with AND, plus the placeholder bindings. -/
def _format_conditions (res : Resource) (filters : List Filtr) (pfx : String) :
    String × List (String × Val) :=
  let rendered := formatConditionsAux res pfx 0 filters
  (String.intercalate " AND " rendered.1, rendered.2)

/-- `PostgreSQL._format_pagination` (lines 569-596): each rule rendered
    by the conditions renderer under its own placeholder name space, the
    rules parenthesized and joined with OR. -/
def _format_pagination (res : Resource) (rules : List (List Filtr)) :
    String × List (String × Val) :=
  let rendered := rules.enum.map
    (fun p => _format_conditions res p.2 ("rules_" ++ toString p.1))
  (String.intercalate " OR " (rendered.map (fun r => "(" ++ r.1 ++ ")")),
   (rendered.map (fun r => r.2)).flatten)

/-- Loop body of `_format_sorting` (lines 611-624): the ORDER BY item
    number `i`. -/
def sortSql (res : Resource) (i : Nat) (sp : SortSpec) : String :=
  (match shapeOf res sp.field with
   | .idCol => "id"
   | .modCol => "last_modified"
   | .payload => "data->>%(sort_field_" ++ toString i ++ ")s")
  ++ " " ++ (if sp.direction > 0 then "ASC" else "DESC")

/-- Loop body of `_format_sorting`: the placeholder bound for item
    number `i`. -/
def sortHolders (res : Resource) (i : Nat) (sp : SortSpec) : List (String × Val) :=
  match shapeOf res sp.field with
  | .payload => [("sort_field_" ++ toString i, Val.vStr sp.field)]
  | _ => []

def formatSortingAux (res : Resource) :
    Nat → List SortSpec → List String × List (String × Val)
  | _, [] => ([], [])
  | i, sp :: rest =>
      let tail := formatSortingAux res (i + 1) rest
      (sortSql res i sp :: tail.1, sortHolders res i sp ++ tail.2)

/-- `PostgreSQL._format_sorting` (lines 598-627). -/
def _format_sorting (res : Resource) (sorting : List SortSpec) :
    String × List (String × Val) :=
  let rendered := formatSortingAux res 0 sorting
  ("ORDER BY " ++ String.intercalate ", " rendered.1, rendered.2)

/-- A domain error raised by a RecordStore operation inside a `connect`
    scope (not a driver error). -/
inductive DomainError where
  | recordNotFound (rid : String)
  | unicityViolation
  deriving DecidableEq, Repr

/-- Outcome of the body of a `connect` scope over a database state `δ`:
    a value together with the pending transaction state, a driver error
    (`psycopg2.Error`), or a domain error raised by the operation
    itself. -/
inductive BodyResult (δ α : Type) where
  | ok (a : α) (db : δ)
  | pgError (e : String)
  | domainErr (d : DomainError)
  deriving DecidableEq, Repr

/-- Outcome of the whole `connect` scope, together with the database
    state that is durable afterwards. -/
inductive ConnectResult (δ α : Type) where
  | committed (a : α) (db : δ)
  | backendError (original : String) (db : δ)
  | domainErr (d : DomainError) (db : δ)
  deriving DecidableEq, Repr

/-- `PostgreSQLClient.connect` (lines 51-83): on normal exit of a
    non-read-only scope the transaction is committed (read-only scopes
    run autocommitted and perform no write); a driver error rolls the
    transaction back and is re-raised as the single generic
    `BackendError` wrapping the original cause; any other exception
    (the domain errors) propagates unconverted, with the transaction
    never committed. -/
def connect {δ α : Type} (_readonly : Bool) (db : δ) (body : δ → BodyResult δ α) :
    ConnectResult δ α :=
  match body db with
  | .ok a pending => .committed a pending
  | .pgError e => .backendError e db
  | .domainErr d => .domainErr d db

/-- A schema-affecting SQL file executed by `_execute_sql_file`. -/
inductive Script where
  | full
  | migration (a b : Nat)
  deriving DecidableEq, Repr

/-- What `_get_installed_version` reports: `none` when no metadata table
    exists, otherwise the installed version number. -/
structure SchemaDb where
  version : Option Nat
  deriving DecidableEq, Repr

/-- The target schema version owned by the engine (line 126). -/
def schemaVersion : Nat := 6

/-- Modelled from the spec: the migration SQL files are not among the
    sources; `migration_a_b.sql` moves the stored schema version to `b`,
    and `schema.sql` installs the full schema at the target version. -/
def applyScript (_db : SchemaDb) : Script → SchemaDb
  | .full => ⟨some schemaVersion⟩
  | .migration _ b => ⟨some b⟩

/-- The migration loop of `initialize_schema` (lines 167-176): before
    each step the installed version is re-read and asserted equal to the
    expected starting version of that step; a mismatch aborts the whole
    migration. -/
def runMigrations : List (Nat × Nat) → SchemaDb → List Script →
    Except String (SchemaDb × List Script)
  | [], db, trace => .ok (db, trace)
  | (a, b) :: rest, db, trace =>
      match db.version with
      | some current =>
          if current = a then
            runMigrations rest (applyScript db (.migration a b)) (trace ++ [.migration a b])
          else .error "unexpected installed version"
      | none => .error "unexpected installed version"

/-- `PostgreSQL.initialize_schema` (lines 144-178): with no installed
    version (including a falsy version 0, which the spec reads as
    absent), the full schema is created fresh; otherwise the step pairs
    `(v, v+1)` up to the target version are applied in order.  The result
    carries the trace of executed SQL files. -/
def initialize_schema (db : SchemaDb) : Except String (SchemaDb × List Script) :=
  match db.version with
  | none => .ok (applyScript db .full, [.full])
  | some v =>
      if v = 0 then .ok (applyScript db .full, [.full])
      else
        runMigrations ((List.range' v (schemaVersion - v)).map (fun a => (a, a + 1))) db []

/-- A minimal heap of Python dict objects, to make aliasing observable:
    a reference is an index into the list. -/
abbrev Heap := List RecordData

/-- `PostgreSQL.create` at the Python statement level, with the callers
    record dict passed as a heap reference: `record = record.copy()`
    (line 281) allocates a fresh object, and the two assignments of
    lines 282-283 mutate only that copy. -/
def createPy (res : Resource) (u genId : String) (h : Heap) (recRef : Nat) (s : State) :
    Except StorageErr (State × Heap × Nat) :=
  let record := (h[recRef]?).getD []
  match create res u genId record s with
  | .error e => .error e
  | .ok (s', _) =>
      let h₁ := h ++ [record]
      let r₁ := h.length
      let h₂ := h₁.set r₁ (setField res.idField (.vStr genId) ((h₁[r₁]?).getD []))
      let h₃ := h₂.set r₁
        (setField res.modifiedField (.vInt ((s.clock + 1 : Nat) : Int)) ((h₂[r₁]?).getD []))
      .ok (s', h₃, r₁)

/-- `PostgreSQL.update` at the Python statement level, mirroring
    lines 346-348. -/
def updatePy (res : Resource) (u rid : String) (h : Heap) (recRef : Nat) (s : State) :
    Except StorageErr (State × Heap × Nat) :=
  let record := (h[recRef]?).getD []
  match update res u rid record s with
  | .error e => .error e
  | .ok (s', _) =>
      let h₁ := h ++ [record]
      let r₁ := h.length
      let h₂ := h₁.set r₁ (setField res.idField (.vStr rid) ((h₁[r₁]?).getD []))
      let h₃ := h₂.set r₁
        (setField res.modifiedField (.vInt ((s.clock + 1 : Nat) : Int)) ((h₂[r₁]?).getD []))
      .ok (s', h₃, r₁)

/-! Shared concrete fixtures used by counterexamples and witnesses. -/

/-- A resource with no unicity constraint. -/
def resW : Resource := ⟨"r", "id", "last_modified", "deleted", []⟩

/-- A resource with one unique field. -/
def resU : Resource := ⟨"r", "id", "last_modified", "deleted", ["email"]⟩

def rowA : Row := ⟨"a", "u", "r", [], 1⟩

def rowB : Row := ⟨"b", "u", "r", [], 2⟩

/-! Helper lemmas. -/

theorem mem_insertLe {α : Type} (le : α → α → Bool) (a x : α) :
    ∀ l : List α, x ∈ insertLe le a l → x = a ∨ x ∈ l := by
  intro l
  induction l with
  | nil => intro hx; simpa [insertLe] using hx
  | cons b bs ih =>
      intro hx
      by_cases hle : le a b = true
      · simpa [insertLe, hle, or_assoc] using hx
      · simp only [insertLe, hle, Bool.false_eq_true, if_false, List.mem_cons] at hx
        rcases hx with hx | hx
        · exact Or.inr (by simp [hx])
        · rcases ih hx with hx | hx
          · exact Or.inl hx
          · exact Or.inr (by simp [hx])

theorem mem_sortLe {α : Type} (le : α → α → Bool) (x : α) :
    ∀ l : List α, x ∈ sortLe le l → x ∈ l := by
  intro l
  induction l with
  | nil => simp [sortLe]
  | cons a rest ih =>
      intro hx
      rcases mem_insertLe le a x (sortLe le rest) hx with hx | hx
      · simp [hx]
      · exact List.mem_cons_of_mem _ (ih hx)

/-- **C6.** Any database error inside a `connect` scope rolls the open
    transaction back and surfaces as the single generic `BackendError`
    wrapping the original cause; the domain errors pass through the
    wrapper unconverted; a normal exit of a non-read-only scope commits
    the pending transaction state. -/
theorem claim_C6_connect {δ α : Type} (readonly : Bool) (db : δ)
    (body : δ → BodyResult δ α) :
    (∀ e, body db = .pgError e → connect readonly db body = .backendError e db) ∧
    (∀ d, body db = .domainErr d → connect readonly db body = .domainErr d db) ∧
    (∀ a pending, body db = .ok a pending →
      connect readonly db body = .committed a pending) := by
  refine ⟨?_, ?_, ?_⟩
  · intro e he; simp [connect, he]
  · intro d hd; simp [connect, hd]
  · intro a pending hok; simp [connect, hok]

theorem claim_C6_connect_witness :
    connect (δ := Nat) (α := Nat) false 7 (fun _ => .pgError "boom")
      = .backendError "boom" 7 ∧
    connect (δ := Nat) (α := Nat) false 7 (fun _ => .domainErr (.recordNotFound "x"))
      = .domainErr (.recordNotFound "x") 7 ∧
    connect (δ := Nat) (α := Nat) false 7 (fun n => .ok 1 (n + 1)) = .committed 1 8 :=
  ⟨(claim_C6_connect false 7 _).1 "boom" rfl,
   (claim_C6_connect false 7 _).2.1 (.recordNotFound "x") rfl,
   (claim_C6_connect false 7 _).2.2 1 8 rfl⟩

theorem runMigrations_range (n : Nat) :
    ∀ (v : Nat) (db : SchemaDb) (trace : List Script), db.version = some v →
      runMigrations ((List.range' v n).map (fun a => (a, a + 1))) db trace =
        .ok (⟨some (v + n)⟩,
             trace ++ (List.range' v n).map (fun a => Script.migration a (a + 1))) := by
  induction n with
  | zero =>
      intro v db trace hv
      cases db
      simp at hv
      simp [hv, runMigrations]
  | succ n ih =>
      intro v db trace hv
      rw [List.range'_succ]
      simp only [List.map_cons, runMigrations, hv, if_pos rfl]
      rw [ih (v + 1) (applyScript db (.migration v (v + 1))) _ rfl]
      simp [Nat.add_assoc, Nat.add_comm 1 n]

/-- **C7.** For an installed version `1 ≤ v ≤ target`, schema
    initialization applies exactly the migration steps
    `(v, v+1), ..., (target-1, target)` in strict increasing order with
    no skips; at `v = target` it applies none; with no installed schema
    it creates the full schema at the target version; and the migration
    loop re-reads the installed version before each step and aborts the
    whole migration when it differs from the step's expected starting
    version. -/
theorem claim_C7_initialize_schema :
    (∀ v, 1 ≤ v → v ≤ schemaVersion →
       initialize_schema ⟨some v⟩ =
         .ok (⟨some schemaVersion⟩,
              (List.range' v (schemaVersion - v)).map (fun a => Script.migration a (a + 1)))) ∧
    initialize_schema ⟨some schemaVersion⟩ = .ok (⟨some schemaVersion⟩, []) ∧
    initialize_schema ⟨none⟩ = .ok (⟨some schemaVersion⟩, [.full]) ∧
    (∀ a b rest db trace, db.version ≠ some a →
       runMigrations ((a, b) :: rest) db trace = .error "unexpected installed version") := by
  refine ⟨?_, by decide, by decide, ?_⟩
  · intro v h1 h2
    have hv0 : v ≠ 0 := by omega
    simp only [initialize_schema, hv0, if_false]
    rw [runMigrations_range (schemaVersion - v) v ⟨some v⟩ [] rfl]
    rw [Nat.add_sub_cancel' h2]
    simp
  · intro a b rest db trace hne
    cases hdb : db.version with
    | none => simp [runMigrations, hdb]
    | some c =>
        have hca : c ≠ a := by
          intro hc; exact hne (by rw [hdb, hc])
        simp [runMigrations, hdb, hca]

theorem claim_C7_witness :
    initialize_schema ⟨some 3⟩ =
      .ok (⟨some schemaVersion⟩,
           (List.range' 3 (schemaVersion - 3)).map (fun a => Script.migration a (a + 1))) :=
  claim_C7_initialize_schema.1 3 (by decide) (by decide)

/-- **C2, counterexample.** With a maximum fetch size of 1 and two
    matching records, one `delete_all` call deletes both records and
    creates both tombstones (4 affected rows, above the cap) while
    returning only a single tombstone record: the number of rows
    affected per call is not bounded by the configured maximum fetch
    size. -/
theorem claim_C2_counterexample :
    (delete_all resW "u" [] 1 ⟨[rowA, rowB], [], 2⟩).1.records = [] ∧
    (delete_all resW "u" [] 1 ⟨[rowA, rowB], [], 2⟩).1.deleted.length = 2 ∧
    (delete_all resW "u" [] 1 ⟨[rowA, rowB], [], 2⟩).2.length = 1 ∧
    ¬((2 : Nat) ≤ 1) := by decide

/-- **C2, amended.** The list of tombstone records returned by one
    `delete_all` call is bounded by the configured maximum fetch size
    (each entry carrying the deleted marker, the record identity and the
    new timestamp), but the deletion itself is unbounded: every record
    matching the filters is deleted and tombstoned in the single call,
    and tombstones beyond the cap are created without being returned. -/
theorem claim_C2_delete_all (res : Resource) (u : String) (filters : List Filtr)
    (maxFetchSize : Nat) (s : State) :
    (delete_all res u filters maxFetchSize s).2.length ≤ maxFetchSize ∧
    (delete_all res u filters maxFetchSize s).1.records
      = s.records.filter (fun r => !(rowMatches res u filters r)) ∧
    (delete_all res u filters maxFetchSize s).1.deleted
      = s.deleted ++ assignTombs res u (s.records.filter (rowMatches res u filters)) s.clock ∧
    (delete_all res u filters maxFetchSize s).2
      = ((assignTombs res u (s.records.filter (rowMatches res u filters)) s.clock).take
          maxFetchSize).map
          (fun t => setField res.modifiedField (.vInt (t.lastModified : Int))
            (setField res.idField (.vStr t.id) (setField "deleted" (.vBool true) []))) := by
  refine ⟨?_, rfl, rfl, rfl⟩
  simp only [delete_all, List.length_map, List.length_take]
  exact min_le_left _ _

theorem heap_app_get (h : Heap) (record : RecordData) :
    ((h ++ [record])[h.length]?).getD [] = record := by
  rw [List.getElem?_append_right (le_refl _)]
  simp

theorem heap_set_get (h : Heap) (record a : RecordData) :
    (((h ++ [record]).set h.length a)[h.length]?).getD [] = a := by
  rw [List.getElem?_set_self (by simp)]
  rfl

/-- **C10.** `create` and `update` never write the identity or the
    timestamp into the mapping the caller passed in: the returned record
    is a fresh object (a distinct heap reference), namely the copy of the
    input payload with the identity and the timestamp fields added, and
    the callers object still holds exactly the input payload
    afterwards. -/
theorem claim_C10_caller_unmodified (res : Resource) (u genId rid : String)
    (h : Heap) (i : Nat) (record : RecordData) (s : State) :
    (∀ s' h' r', h[i]? = some record → createPy res u genId h i s = .ok (s', h', r') →
       h'[i]? = some record ∧ r' ≠ i ∧
       h'[r']? = some (setField res.modifiedField (.vInt ((s.clock + 1 : Nat) : Int))
         (setField res.idField (.vStr genId) record))) ∧
    (∀ s' h' r', h[i]? = some record → updatePy res u rid h i s = .ok (s', h', r') →
       h'[i]? = some record ∧ r' ≠ i ∧
       h'[r']? = some (setField res.modifiedField (.vInt ((s.clock + 1 : Nat) : Int))
         (setField res.idField (.vStr rid) record))) := by
  constructor
  · intro s' h' r' hi hok
    have hilen : i < h.length := by
      by_contra hle
      rw [List.getElem?_eq_none (Nat.le_of_not_lt hle)] at hi
      exact Option.noConfusion hi
    simp only [createPy, hi, Option.getD_some] at hok
    cases hc : create res u genId record s with
    | error e => rw [hc] at hok; exact absurd hok (by simp)
    | ok p =>
        obtain ⟨s₀, ret⟩ := p
        rw [hc] at hok
        rw [heap_app_get, heap_set_get] at hok
        rw [Except.ok.injEq, Prod.mk.injEq, Prod.mk.injEq] at hok
        obtain ⟨hs, hh, hr⟩ := hok
        subst hh; subst hr
        refine ⟨?_, by omega, ?_⟩
        · rw [List.getElem?_set_ne (by omega), List.getElem?_set_ne (by omega),
              List.getElem?_append_left hilen, hi]
        · rw [List.getElem?_set_self (by simp)]
  · intro s' h' r' hi hok
    have hilen : i < h.length := by
      by_contra hle
      rw [List.getElem?_eq_none (Nat.le_of_not_lt hle)] at hi
      exact Option.noConfusion hi
    simp only [updatePy, hi, Option.getD_some] at hok
    cases hc : update res u rid record s with
    | error e => rw [hc] at hok; exact absurd hok (by simp)
    | ok p =>
        obtain ⟨s₀, ret⟩ := p
        rw [hc] at hok
        rw [heap_app_get, heap_set_get] at hok
        rw [Except.ok.injEq, Prod.mk.injEq, Prod.mk.injEq] at hok
        obtain ⟨hs, hh, hr⟩ := hok
        subst hh; subst hr
        refine ⟨?_, by omega, ?_⟩
        · rw [List.getElem?_set_ne (by omega), List.getElem?_set_ne (by omega),
              List.getElem?_append_left hilen, hi]
        · rw [List.getElem?_set_self (by simp)]

theorem claim_C10_witness :
    ([[("x", Val.vInt 5)]][0]? = some [("x", Val.vInt 5)]) ∧
    (createPy resW "u" "n" [[("x", Val.vInt 5)]] 0 ⟨[], [], 0⟩ =
      .ok (⟨[⟨"n", "u", "r", [("x", Val.vInt 5)], 1⟩], [], 1⟩,
           [[("x", Val.vInt 5)],
            [("x", Val.vInt 5), ("id", Val.vStr "n"), ("last_modified", Val.vInt 1)]], 1)) ∧
    ([[("x", Val.vInt 5)],
      [("x", Val.vInt 5), ("id", Val.vStr "n"), ("last_modified", Val.vInt 1)]][0]?
       = some [("x", Val.vInt 5)]) :=
  ⟨rfl, by decide,
   ((claim_C10_caller_unmodified resW "u" "n" "m" [[("x", Val.vInt 5)]] 0
       [("x", Val.vInt 5)] ⟨[], [], 0⟩).1
     ⟨[⟨"n", "u", "r", [("x", Val.vInt 5)], 1⟩], [], 1⟩
     [[("x", Val.vInt 5)],
      [("x", Val.vInt 5), ("id", Val.vStr "n"), ("last_modified", Val.vInt 1)]]
     1 rfl (by decide)).1⟩

/-- **C5.** `delete` removes the live record and inserts its tombstone in
    the same transition, with the tombstone timestamp assigned at that
    instant, and returns the tombstone record; it fails with
    `RecordNotFoundError` when no live record with the identity exists,
    and a second delete of the same identity fails the same way. -/
theorem claim_C5_delete (res : Resource) (u rid : String) (s : State) :
    (s.records.find? (keyMatch rid u res.name) = none →
       delete res u rid s = .error (.notFound rid)) ∧
    (∀ row, s.records.find? (keyMatch rid u res.name) = some row →
       delete res u rid s =
         .ok (⟨s.records.filter (fun r => !(keyMatch rid u res.name r)),
               s.deleted ++ [⟨rid, u, res.name, s.clock + 1⟩], s.clock + 1⟩,
              setField res.deletedField (.vBool true)
                (setField res.idField (.vStr rid)
                  (setField res.modifiedField (.vInt ((s.clock + 1 : Nat) : Int)) [])))) ∧
    (∀ s' t, delete res u rid s = .ok (s', t) →
       delete res u rid s' = .error (.notFound rid)) := by
  refine ⟨?_, ?_, ?_⟩
  · intro hf; simp [delete, hf]
  · intro row hf; simp [delete, hf]
  · intro s' t hok
    cases hf : s.records.find? (keyMatch rid u res.name) with
    | none => simp [delete, hf] at hok
    | some row =>
        simp only [delete, hf] at hok
        rw [Except.ok.injEq, Prod.mk.injEq] at hok
        obtain ⟨hs, ht⟩ := hok
        subst hs
        have hnone : (s.records.filter
            (fun r => !(keyMatch rid u res.name r))).find? (keyMatch rid u res.name) = none := by
          rw [List.find?_eq_none]
          intro x hxmem
          have hx := (List.mem_filter.mp hxmem).2
          simp only [Bool.not_eq_eq_eq_not, Bool.not_true] at hx
          simp [hx]
        simp [delete, hnone]

theorem claim_C5_witness :
    delete resW "u" "a" ⟨[rowA], [], 1⟩ =
      .ok (⟨[], [⟨"a", "u", "r", 2⟩], 2⟩,
           setField resW.deletedField (.vBool true)
             (setField resW.idField (.vStr "a")
               (setField resW.modifiedField (.vInt 2) []))) ∧
    delete resW "u" "a" ⟨[], [⟨"a", "u", "r", 2⟩], 2⟩ = .error (.notFound "a") :=
  ⟨by
    have h := (claim_C5_delete resW "u" "a" ⟨[rowA], [], 1⟩).2.1 rowA (by decide)
    simpa using h,
   by
    have h := (claim_C5_delete resW "u" "a" ⟨[rowA], [], 1⟩).2.2
      ⟨[], [⟨"a", "u", "r", 2⟩], 2⟩
      (setField resW.deletedField (.vBool true)
        (setField resW.idField (.vStr "a")
          (setField resW.modifiedField (.vInt 2) []))) (by decide)
    simpa using h⟩

theorem find?_map_if (p : Row → Bool) (g : Row → Row)
    (hp : ∀ r, p r = true → p (g r) = true) :
    ∀ l : List Row, l.any p = true →
      ∃ r₀, l.find? p = some r₀ ∧
        (l.map (fun r => if p r then g r else r)).find? p = some (g r₀) := by
  intro l
  induction l with
  | nil => simp
  | cons a tl ih =>
      intro hany
      by_cases hpa : p a = true
      · exact ⟨a, by simp [List.find?_cons_of_pos, hpa],
                by simp [List.find?_cons_of_pos, hpa, hp a hpa]⟩
      · have hpa' : p a = false := by simpa using hpa
        have htl : tl.any p = true := by
          rw [List.any_cons, hpa'] at hany
          simpa using hany
        obtain ⟨r₀, h1, h2⟩ := ih htl
        refine ⟨r₀, ?_, ?_⟩
        · rw [List.find?_cons_of_neg _ (by simp [hpa']), h1]
        · simp only [List.map_cons, hpa', Bool.false_eq_true, if_false]
          rw [List.find?_cons_of_neg _ (by simp [hpa']), h2]

/-- **C4.** `update` never fails with `RecordNotFoundError`: with no
    record under the identity it behaves identically to `create` with
    that identity, and in every successful case the stored record read
    back by `get` afterwards is the input payload with the identity and
    the refreshed timestamp, which is also the record returned. -/
theorem claim_C4_update (res : Resource) (u rid : String) (record : RecordData)
    (s : State) :
    (∀ e, update res u rid record s ≠ .error (.notFound e)) ∧
    (s.records.find? (keyMatch rid u res.name) = none →
       update res u rid record s = create res u rid record s) ∧
    (∀ s' ret, update res u rid record s = .ok (s', ret) →
       ret = setField res.modifiedField (.vInt ((s.clock + 1 : Nat) : Int))
               (setField res.idField (.vStr rid) record) ∧
       get res u rid s' =
         .ok (setField res.modifiedField (.vInt ((s.clock + 1 : Nat) : Int))
               (setField res.idField (.vStr rid) record))) := by
  refine ⟨?_, ?_, ?_⟩
  · intro e
    cases hcu : _check_unicity res u record s with
    | some p => obtain ⟨f, ex⟩ := p; simp [update, hcu]
    | none => cases hx : s.records.any (keyMatch rid u res.name) <;> simp [update, hcu, hx]
  · intro hf
    have hx : s.records.any (keyMatch rid u res.name) = false := by
      rw [List.any_eq_false]
      exact List.find?_eq_none.mp hf
    cases hcu : _check_unicity res u record s with
    | some p => obtain ⟨f, ex⟩ := p; simp [update, create, hcu]
    | none => simp [update, create, hcu, hx]
  · intro s' ret hok
    cases hcu : _check_unicity res u record s with
    | some p => obtain ⟨f, ex⟩ := p; simp [update, hcu] at hok
    | none =>
        simp only [update, hcu] at hok
        cases hx : s.records.any (keyMatch rid u res.name) with
        | true =>
            simp only [hx, if_true] at hok
            rw [Except.ok.injEq, Prod.mk.injEq] at hok
            obtain ⟨hs, hret⟩ := hok
            subst hs; subst hret
            refine ⟨rfl, ?_⟩
            obtain ⟨r₀, hf₀, hfm⟩ := find?_map_if (keyMatch rid u res.name)
              (fun r => Row.mk r.id r.userId r.resourceName record (s.clock + 1))
              (by intro r hr; simpa [keyMatch] using hr) s.records hx
            simp only [get, hfm]
        | false =>
            simp only [hx, Bool.false_eq_true, if_false] at hok
            rw [Except.ok.injEq, Prod.mk.injEq] at hok
            obtain ⟨hs, hret⟩ := hok
            subst hs; subst hret
            refine ⟨rfl, ?_⟩
            have h1 : s.records.find? (keyMatch rid u res.name) = none := by
              rw [List.find?_eq_none]
              exact List.any_eq_false.mp hx
            have hkm : keyMatch rid u res.name
                (Row.mk rid u res.name record (s.clock + 1)) = true := by
              simp [keyMatch]
            have hfind : (s.records ++
                [Row.mk rid u res.name record (s.clock + 1)]).find? (keyMatch rid u res.name)
                = some (Row.mk rid u res.name record (s.clock + 1)) := by
              rw [List.find?_append, h1, Option.none_or, List.find?_cons_of_pos _ hkm]
            simp only [get, hfind]

theorem claim_C4_witness :
    update resW "u" "n" [("x", Val.vInt 5)] ⟨[], [], 0⟩ =
      create resW "u" "n" [("x", Val.vInt 5)] ⟨[], [], 0⟩ ∧
    get resW "u" "n" ⟨[⟨"n", "u", "r", [("x", Val.vInt 5)], 1⟩], [], 1⟩ =
      .ok (setField resW.modifiedField (.vInt 1)
            (setField resW.idField (.vStr "n") [("x", Val.vInt 5)])) :=
  ⟨(claim_C4_update resW "u" "n" [("x", Val.vInt 5)] ⟨[], [], 0⟩).2.1 (by decide),
   ((claim_C4_update resW "u" "n" [("x", Val.vInt 5)] ⟨[], [], 0⟩).2.2
     ⟨[⟨"n", "u", "r", [("x", Val.vInt 5)], 1⟩], [], 1⟩
     (setField resW.modifiedField (.vInt 1)
       (setField resW.idField (.vStr "n") [("x", Val.vInt 5)])) (by decide)).2⟩


/-- The conflict predicate exactly as the claim words it (the claim-side
    definition for the refinement check): some other record of the same
    tenant and resource has, on some unique field, a stored value equal
    to the candidate value on that field, considering only unique fields
    present in the candidate with a non-null value, and excluding the
    identity the candidate carries. -/
def specConflict (res : Resource) (u : String) (record : RecordData) (s : State) : Bool :=
  s.records.any (fun row =>
    row.userId == u && row.resourceName == res.name
    && res.uniqueFields.any (fun f =>
        match record.lookup f with
        | some v => !(v == Val.vNull) && (match row.data.lookup f with
            | some w => w == v
            | none => false)
        | none => false)
    && (match record.lookup res.idField with
        | some (Val.vStr rid) => row.id != rid
        | _ => true))

/-- **C3, counterexample.** With unique field `email`, a candidate
    carrying the empty string as its email, and a single existing record
    that has no email value at all, `_check_unicity` aborts with a
    `UnicityError` even though no other record has a value equal to the
    candidate value on any unique field: the probe compares the
    coalesced stored text (missing fields read as the empty string), not
    stored values. -/
theorem claim_C3_counterexample :
    (_check_unicity resU "u" [("email", Val.vStr "")] ⟨[rowA], [], 1⟩).isSome = true ∧
    specConflict resU "u" [("email", Val.vStr "")] ⟨[rowA], [], 1⟩ = false := by decide

/-- **C3, amended.** `_check_unicity` aborts exactly when some record of
    the same tenant and resource satisfies the rendered probe condition:
    on some unique field carried by the candidate with a non-null value,
    the coalesced stored text of the record (missing and null fields
    reading as the empty string, values compared in canonical text form)
    equals the candidate value in canonical text form, the candidate
    identity being excluded when it is carried and truthy; the raised
    error carries the conflicting record fully materlialized through
    `get` (identity, timestamp and payload). -/
theorem claim_C3_unicity (res : Resource) (u : String) (record : RecordData) (s : State) :
    ((_check_unicity res u record s).isSome = s.records.any (unicityCond res u record)) ∧
    (∀ f ex, _check_unicity res u record s = some (f, ex) →
       f = res.uniqueFields.getLastD "" ∧
       ∃ row, s.records.find? (unicityCond res u record) = some row ∧
         get res u row.id s = .ok ex) := by
  constructor
  · cases h1 : res.uniqueFields.isEmpty with
    | true =>
        have hu : res.uniqueFields = [] := by simpa using h1
        have hany : s.records.any (unicityCond res u record) = false := by
          rw [List.any_eq_false]
          intro x hx
          simp [unicityCond, candUniqueFields, hu]
        simp [_check_unicity, h1, hany]
    | false =>
        cases h2 : (candUniqueFields res record).isEmpty with
        | true =>
            have hc : candUniqueFields res record = [] := by simpa using h2
            have hany : s.records.any (unicityCond res u record) = false := by
              rw [List.any_eq_false]
              intro x hx
              simp [unicityCond, hc]
            simp [_check_unicity, h1, h2, hany]
        | false =>
            simp only [_check_unicity, h1, h2, Bool.false_eq_true, if_false]
            cases hf : s.records.find? (unicityCond res u record) with
            | none =>
                have hany : s.records.any (unicityCond res u record) = false := by
                  rw [List.any_eq_false]
                  exact List.find?_eq_none.mp hf
                simp [hany]
            | some row =>
                have hany : s.records.any (unicityCond res u record) = true :=
                  List.any_eq_true.mpr
                    ⟨row, List.mem_of_find?_eq_some hf, List.find?_some hf⟩
                simp [hany]
  · intro f ex hsome
    cases h1 : res.uniqueFields.isEmpty with
    | true => simp [_check_unicity, h1] at hsome
    | false =>
        cases h2 : (candUniqueFields res record).isEmpty with
        | true => simp [_check_unicity, h1, h2] at hsome
        | false =>
            simp only [_check_unicity, h1, h2, Bool.false_eq_true, if_false] at hsome
            cases hf : s.records.find? (unicityCond res u record) with
            | none => rw [hf] at hsome; exact absurd hsome (by simp)
            | some row =>
                rw [hf] at hsome
                have hcond := List.find?_some hf
                have hmem := List.mem_of_find?_eq_some hf
                have hu1 : row.userId = u := by
                  simp only [unicityCond, Bool.and_eq_true, beq_iff_eq] at hcond
                  tauto
                have hu2 : row.resourceName = res.name := by
                  simp only [unicityCond, Bool.and_eq_true, beq_iff_eq] at hcond
                  tauto
                have hkm : keyMatch row.id u res.name row = true := by
                  simp [keyMatch, hu1, hu2]
                cases hg : s.records.find? (keyMatch row.id u res.name) with
                | none => exact absurd (List.find?_eq_none.mp hg row hmem) (by simp [hkm])
                | some row' =>
                    have hgeq : get res u row.id s =
                        .ok (setField res.modifiedField (.vInt (row'.lastModified : Int))
                              (setField res.idField (.vStr row.id) row'.data)) := by
                      simp only [get, hg]
                    simp only [Option.some.injEq, Prod.mk.injEq, hgeq] at hsome
                    obtain ⟨hf1, hex⟩ := hsome
                    exact ⟨hf1.symm, row, rfl, by rw [hgeq, hex]⟩

theorem claim_C3_unicity_witness :
    "email" = resU.uniqueFields.getLastD "" ∧
    ∃ row, (State.mk [Row.mk "a" "u" "r" [("email", Val.vStr "x")] 1] [] 1).records.find?
        (unicityCond resU "u" [("email", Val.vStr "x")]) = some row ∧
      get resU "u" row.id (State.mk [Row.mk "a" "u" "r" [("email", Val.vStr "x")] 1] [] 1) =
        .ok [("email", Val.vStr "x"), ("id", Val.vStr "a"), ("last_modified", Val.vInt 1)] :=
  (claim_C3_unicity resU "u" [("email", Val.vStr "x")]
      ⟨[Row.mk "a" "u" "r" [("email", Val.vStr "x")] 1], [], 1⟩).2
    "email" [("email", Val.vStr "x"), ("id", Val.vStr "a"), ("last_modified", Val.vInt 1)]
    (by decide)

theorem mem_getAllLimited {limit : Option Nat} {xs : List (QRow × Nat)}
    {p : QRow × Nat} (h : p ∈ getAllLimited limit xs) : p ∈ xs := by
  cases limit with
  | none => simpa [getAllLimited] using h
  | some l =>
      by_cases hl : (l == 0) = true
      · simpa [getAllLimited, hl] using h
      · simp only [getAllLimited, hl, Bool.false_eq_true, if_false] at h
        exact List.mem_of_mem_take h

theorem pageRows_snd (res : Resource) (u : String) (filters : List Filtr)
    (sorting : List SortSpec) (rules : List (List Filtr)) (limit : Option Nat)
    (includeDeleted : Bool) (maxFetchSize : Nat) (s : State) :
    ∀ p ∈ pageRows res u filters sorting rules limit includeDeleted maxFetchSize s,
      p.2 = totalFiltered res u filters s := by
  intro p hp
  simp only [pageRows] at hp
  have h2 := mem_getAllLimited (List.mem_of_mem_take hp)
  have h3 : p ∈ (joinedRows res u filters maxFetchSize includeDeleted rules s).map
      (fun q => (q, totalFiltered res u filters s)) := by
    cases sorting with
    | nil => exact h2
    | cons sp tl => exact mem_sortLe _ _ _ h2
  obtain ⟨q, hq, hpq⟩ := List.mem_map.mp h3
  rw [← hpq]

/-- **C1, counterexample.** With one live record matching the (empty)
    filter list and a pagination rule that excludes every row, `get_all`
    returns `([], 0)`: the Python code short-circuits an empty page to a
    total count of zero, although the number of live records matching
    the filters is 1. -/
theorem claim_C1_counterexample :
    get_all resW "u" [] [] [[Filtr.mk "id" (Val.vStr "zzz") .EQ]] none false 10
        ⟨[rowA], [], 1⟩ = ([], 0) ∧
    totalFiltered resW "u" [] ⟨[rowA], [], 1⟩ = 1 := by decide

/-- **C1, amended.** Whenever the returned page is non-empty, the
    `total_count` returned by `get_all` equals the number of live
    records matching the filters, independent of the pagination rules
    and of the limit; but when the pagination rules or the limit exclude
    every row from the page, `get_all` returns a total count of 0
    instead of the full filter-matching count. -/
theorem claim_C1_total_count (res : Resource) (u : String) (filters : List Filtr)
    (sorting : List SortSpec) (rules : List (List Filtr)) (limit : Option Nat)
    (includeDeleted : Bool) (maxFetchSize : Nat) (s : State) :
    ((get_all res u filters sorting rules limit includeDeleted maxFetchSize s).1 = [] →
       (get_all res u filters sorting rules limit includeDeleted maxFetchSize s).2 = 0) ∧
    ((get_all res u filters sorting rules limit includeDeleted maxFetchSize s).1 ≠ [] →
       (get_all res u filters sorting rules limit includeDeleted maxFetchSize s).2
         = totalFiltered res u filters s) := by
  cases hp : pageRows res u filters sorting rules limit includeDeleted maxFetchSize s with
  | nil =>
      constructor
      · intro _; simp [get_all, hp]
      · intro hne; exact absurd (by simp [get_all, hp]) hne
  | cons p rest =>
      obtain ⟨q₀, c₀⟩ := p
      constructor
      · intro hnil; simp [get_all, hp] at hnil
      · intro _
        have hc : c₀ = totalFiltered res u filters s := by
          have hmem : ((q₀, c₀) : QRow × Nat) ∈
              pageRows res u filters sorting rules limit includeDeleted maxFetchSize s := by
            rw [hp]; exact List.mem_cons_self _ _
          exact pageRows_snd res u filters sorting rules limit includeDeleted
            maxFetchSize s (q₀, c₀) hmem
        simp [get_all, hp, hc]

theorem claim_C1_witness :
    (get_all resW "u" [] [] [] none false 10 ⟨[rowA], [], 1⟩).2 =
      totalFiltered resW "u" [] ⟨[rowA], [], 1⟩ :=
  (claim_C1_total_count resW "u" [] [] [] none false 10 ⟨[rowA], [], 1⟩).2 (by decide)

theorem formatConditionsAux_sql (res : Resource) (pfx : String) :
    ∀ (fs : List Filtr) (i : Nat),
      (formatConditionsAux res pfx i fs).1
        = (fs.enumFrom i).map (fun p => condSql res pfx p.1 p.2) := by
  intro fs
  induction fs with
  | nil => intro i; simp [formatConditionsAux]
  | cons f rest ih => intro i; simp [formatConditionsAux, List.enumFrom, ih]

theorem formatConditionsAux_holders (res : Resource) (pfx : String) :
    ∀ (fs : List Filtr) (i : Nat),
      (formatConditionsAux res pfx i fs).2
        = ((fs.enumFrom i).map (fun p => condHolders res pfx p.1 p.2)).flatten := by
  intro fs
  induction fs with
  | nil => intro i; simp [formatConditionsAux]
  | cons f rest ih => intro i; simp [formatConditionsAux, List.enumFrom, ih]

theorem formatConditionsAux_mem_value (res : Resource) (pfx : String) :
    ∀ (fs : List Filtr) (i k : Nat) (f : Filtr), fs[k]? = some f →
      (pfx ++ "_value_" ++ toString (i + k), boundValue res f)
        ∈ (formatConditionsAux res pfx i fs).2 := by
  intro fs
  induction fs with
  | nil => intro i k f h; simp at h
  | cons g t ih =>
      intro i k f hk
      cases k with
      | zero =>
          have hg : g = f := by simpa using hk
          subst hg
          simp [formatConditionsAux, condHolders]
      | succ m =>
          have hmem := ih (i + 1) m f (by simpa using hk)
          have harith : i + (m + 1) = i + 1 + m := by omega
          rw [harith]
          simp only [formatConditionsAux]
          exact List.mem_append_right _ hmem

theorem formatConditionsAux_mem_field (res : Resource) (pfx : String) :
    ∀ (fs : List Filtr) (i k : Nat) (f : Filtr), fs[k]? = some f →
      shapeOf res f.field = .payload →
      (pfx ++ "_field_" ++ toString (i + k), Val.vStr f.field)
        ∈ (formatConditionsAux res pfx i fs).2 := by
  intro fs
  induction fs with
  | nil => intro i k f h _; simp at h
  | cons g t ih =>
      intro i k f hk hshape
      cases k with
      | zero =>
          have hg : g = f := by simpa using hk
          subst hg
          simp [formatConditionsAux, condHolders, hshape]
      | succ m =>
          have hmem := ih (i + 1) m f (by simpa using hk) hshape
          have harith : i + (m + 1) = i + 1 + m := by omega
          rw [harith]
          simp only [formatConditionsAux]
          exact List.mem_append_right _ hmem

/-- **C8.** The conditions renderer produces one comparison per filter,
    joined with AND; equals and not-equals become `=` and `<>` while
    every other operator token passes through unchanged; a payload field
    is rendered as a JSON-path lookup coalesced to the empty string; and
    non-string values on payload fields are bound in their canonical
    text serialization. -/
theorem claim_C8_format_conditions (res : Resource) (fs : List Filtr) :
    ((_format_conditions res fs "filters").1
       = String.intercalate " AND "
           ((fs.enum).map (fun p => condSql res "filters" p.1 p.2))) ∧
    (∀ (i : Nat) (f : Filtr), shapeOf res f.field = .payload →
       condSql res "filters" i f
         = "coalesce(data->>%(filters_field_" ++ toString i ++ ")s, '') "
           ++ sqlOpToken f.op ++ " %(filters_value_" ++ toString i ++ ")s") ∧
    (∀ (i : Nat) (f : Filtr), shapeOf res f.field = .idCol →
       condSql res "filters" i f
         = "id " ++ sqlOpToken f.op ++ " %(filters_value_" ++ toString i ++ ")s") ∧
    (∀ (i : Nat) (f : Filtr), shapeOf res f.field = .modCol →
       condSql res "filters" i f
         = "as_epoch(last_modified) " ++ sqlOpToken f.op
           ++ " %(filters_value_" ++ toString i ++ ")s") ∧
    sqlOpToken .EQ = "=" ∧ sqlOpToken .NOT = "<>" ∧
    (∀ op, op ≠ .EQ → op ≠ .NOT → sqlOpToken op = compToken op) ∧
    (∀ (i : Nat) (f : Filtr), fs[i]? = some f →
       ("filters_value_" ++ toString i, boundValue res f)
         ∈ (_format_conditions res fs "filters").2) ∧
    (∀ f : Filtr, shapeOf res f.field = .payload → isStringVal f.value = false →
       boundValue res f = Val.vStr (dumpsStrip f.value)) := by
  refine ⟨?_, ?_, ?_, ?_, rfl, rfl, ?_, ?_, ?_⟩
  · simp only [_format_conditions, formatConditionsAux_sql res "filters" fs 0, List.enum]
  · intro i f hshape
    simp only [condSql, hshape, String.append_assoc]
    rfl
  · intro i f hshape
    simp only [condSql, hshape, String.append_assoc]
    rfl
  · intro i f hshape
    simp only [condSql, hshape, String.append_assoc]
    rfl
  · intro op h1 h2
    cases op <;> first | rfl | exact absurd rfl h1 | exact absurd rfl h2
  · intro i f hif
    have := formatConditionsAux_mem_value res "filters" fs 0 i f hif
    simpa [_format_conditions] using this
  · intro f hshape hstr
    cases hv : f.value with
    | vStr s => rw [hv] at hstr; simp [isStringVal] at hstr
    | vInt n => simp [boundValue, hshape, hv]
    | vBool b => simp [boundValue, hshape, hv]
    | vNull => simp [boundValue, hshape, hv]

theorem claim_C8_witness :
    (_format_conditions resW
        [Filtr.mk "email" (Val.vBool true) .EQ, Filtr.mk "id" (Val.vStr "a") .GT] "filters").1
      = String.intercalate " AND "
          (([Filtr.mk "email" (Val.vBool true) .EQ,
             Filtr.mk "id" (Val.vStr "a") .GT].enum).map
            (fun p => condSql resW "filters" p.1 p.2)) ∧
    condSql resW "filters" 0 (Filtr.mk "email" (Val.vBool true) .EQ)
      = "coalesce(data->>%(filters_field_" ++ toString 0 ++ ")s, '') " ++ sqlOpToken .EQ
        ++ " %(filters_value_" ++ toString 0 ++ ")s" ∧
    ("filters_value_" ++ toString 0,
      boundValue resW (Filtr.mk "email" (Val.vBool true) .EQ))
      ∈ (_format_conditions resW
          [Filtr.mk "email" (Val.vBool true) .EQ, Filtr.mk "id" (Val.vStr "a") .GT]
          "filters").2 ∧
    boundValue resW (Filtr.mk "email" (Val.vBool true) .EQ)
      = Val.vStr (dumpsStrip (Val.vBool true)) :=
  ⟨(claim_C8_format_conditions resW
      [Filtr.mk "email" (Val.vBool true) .EQ, Filtr.mk "id" (Val.vStr "a") .GT]).1,
   (claim_C8_format_conditions resW
      [Filtr.mk "email" (Val.vBool true) .EQ, Filtr.mk "id" (Val.vStr "a") .GT]).2.1
     0 (Filtr.mk "email" (Val.vBool true) .EQ) (by decide),
   (claim_C8_format_conditions resW
      [Filtr.mk "email" (Val.vBool true) .EQ, Filtr.mk "id" (Val.vStr "a") .GT]).2.2.2.2.2.2.2.1
     0 (Filtr.mk "email" (Val.vBool true) .EQ) rfl,
   (claim_C8_format_conditions resW
      [Filtr.mk "email" (Val.vBool true) .EQ, Filtr.mk "id" (Val.vStr "a") .GT]).2.2.2.2.2.2.2.2
     (Filtr.mk "email" (Val.vBool true) .EQ) (by decide) rfl⟩

theorem condSql_congr (res : Resource) (pfx : String) (i : Nat) {f g : Filtr}
    (hs : shapeOf res f.field = shapeOf res g.field) (hop : f.op = g.op) :
    condSql res pfx i f = condSql res pfx i g := by
  simp only [condSql, hs, hop]

theorem formatConditionsAux_congr (res : Resource) (pfx : String) :
    ∀ (fs1 fs2 : List Filtr) (i : Nat),
      fs1.map (fun f => (shapeOf res f.field, f.op))
        = fs2.map (fun f => (shapeOf res f.field, f.op)) →
      (formatConditionsAux res pfx i fs1).1 = (formatConditionsAux res pfx i fs2).1 := by
  intro fs1
  induction fs1 with
  | nil =>
      intro fs2 i h
      cases fs2 with
      | nil => rfl
      | cons g t => simp at h
  | cons f t ih =>
      intro fs2 i h
      cases fs2 with
      | nil => simp at h
      | cons g t2 =>
          simp only [List.map_cons, List.cons.injEq, Prod.mk.injEq] at h
          obtain ⟨⟨hs, hop⟩, ht⟩ := h
          simp only [formatConditionsAux]
          rw [condSql_congr res pfx i hs hop, ih t2 (i + 1) ht]

theorem format_conditions_congr (res : Resource) (pfx : String) (fs1 fs2 : List Filtr)
    (h : fs1.map (fun f => (shapeOf res f.field, f.op))
       = fs2.map (fun f => (shapeOf res f.field, f.op))) :
    (_format_conditions res fs1 pfx).1 = (_format_conditions res fs2 pfx).1 := by
  simp only [_format_conditions]
  rw [formatConditionsAux_congr res pfx fs1 fs2 0 h]

theorem sortSql_congr (res : Resource) (i : Nat) {a b : SortSpec}
    (hs : shapeOf res a.field = shapeOf res b.field)
    (hd : decide (a.direction > 0) = decide (b.direction > 0)) :
    sortSql res i a = sortSql res i b := by
  simp only [sortSql, hs]
  rw [if_congr (decide_eq_decide.mp hd) rfl rfl]

theorem formatSortingAux_congr (res : Resource) :
    ∀ (ss1 ss2 : List SortSpec) (i : Nat),
      ss1.map (fun sp => (shapeOf res sp.field, decide (sp.direction > 0)))
        = ss2.map (fun sp => (shapeOf res sp.field, decide (sp.direction > 0))) →
      (formatSortingAux res i ss1).1 = (formatSortingAux res i ss2).1 := by
  intro ss1
  induction ss1 with
  | nil =>
      intro ss2 i h
      cases ss2 with
      | nil => rfl
      | cons b t => simp at h
  | cons a t ih =>
      intro ss2 i h
      cases ss2 with
      | nil => simp at h
      | cons b t2 =>
          simp only [List.map_cons, List.cons.injEq, Prod.mk.injEq] at h
          obtain ⟨⟨hs, hd⟩, ht⟩ := h
          simp only [formatSortingAux]
          rw [sortSql_congr res i hs hd, ih t2 (i + 1) ht]

theorem formatPagination_rules_congr (res : Resource) :
    ∀ (rs1 rs2 : List (List Filtr)) (j : Nat),
      rs1.map (fun rule => rule.map (fun f => (shapeOf res f.field, f.op)))
        = rs2.map (fun rule => rule.map (fun f => (shapeOf res f.field, f.op))) →
      (rs1.enumFrom j).map
          (fun p => "(" ++ (_format_conditions res p.2 ("rules_" ++ toString p.1)).1 ++ ")")
        = (rs2.enumFrom j).map
          (fun p => "(" ++ (_format_conditions res p.2 ("rules_" ++ toString p.1)).1 ++ ")") := by
  intro rs1
  induction rs1 with
  | nil =>
      intro rs2 j h
      cases rs2 with
      | nil => rfl
      | cons r t => simp at h
  | cons r t ih =>
      intro rs2 j h
      cases rs2 with
      | nil => simp at h
      | cons r2 t2 =>
          simp only [List.map_cons, List.cons.injEq] at h
          obtain ⟨hr, ht⟩ := h
          simp only [List.enumFrom, List.map_cons]
          rw [format_conditions_congr res ("rules_" ++ toString j) r r2 hr, ih t2 (j + 1) ht]

theorem formatSortingAux_mem_field (res : Resource) :
    ∀ (ss : List SortSpec) (i k : Nat) (sp : SortSpec), ss[k]? = some sp →
      shapeOf res sp.field = .payload →
      ("sort_field_" ++ toString (i + k), Val.vStr sp.field)
        ∈ (formatSortingAux res i ss).2 := by
  intro ss
  induction ss with
  | nil => intro i k sp h _; simp at h
  | cons a t ih =>
      intro i k sp hk hshape
      cases k with
      | zero =>
          have ha : a = sp := by simpa using hk
          subst ha
          simp [formatSortingAux, sortHolders, hshape]
      | succ m =>
          have hmem := ih (i + 1) m sp (by simpa using hk) hshape
          have harith : i + (m + 1) = i + 1 + m := by omega
          rw [harith]
          simp only [formatSortingAux]
          exact List.mem_append_right _ hmem

/-- **C9.** In all three renderers, user-supplied field names never reach
    the SQL text: the rendered fragment depends only on the field shape
    (identity column, timestamp column, or payload) and on the operator
    or direction, so two inputs agreeing on those render the same text
    whatever their field names; the payload field names appear instead
    among the bound placeholder values feeding the JSON-path accessor.
    The only identifiers in the text are the fixed column tokens of the
    code. -/
theorem claim_C9_renderers (res : Resource) (pfx : String)
    (fs1 fs2 : List Filtr) (ss1 ss2 : List SortSpec) (rs1 rs2 : List (List Filtr)) :
    (fs1.map (fun f => (shapeOf res f.field, f.op))
       = fs2.map (fun f => (shapeOf res f.field, f.op)) →
       (_format_conditions res fs1 pfx).1 = (_format_conditions res fs2 pfx).1) ∧
    (ss1.map (fun sp => (shapeOf res sp.field, decide (sp.direction > 0)))
       = ss2.map (fun sp => (shapeOf res sp.field, decide (sp.direction > 0))) →
       (_format_sorting res ss1).1 = (_format_sorting res ss2).1) ∧
    (rs1.map (fun rule => rule.map (fun f => (shapeOf res f.field, f.op)))
       = rs2.map (fun rule => rule.map (fun f => (shapeOf res f.field, f.op))) →
       (_format_pagination res rs1).1 = (_format_pagination res rs2).1) ∧
    (∀ (i : Nat) (f : Filtr), fs1[i]? = some f → shapeOf res f.field = .payload →
       (pfx ++ "_field_" ++ toString i, Val.vStr f.field)
         ∈ (_format_conditions res fs1 pfx).2) ∧
    (∀ (i : Nat) (sp : SortSpec), ss1[i]? = some sp → shapeOf res sp.field = .payload →
       ("sort_field_" ++ toString i, Val.vStr sp.field) ∈ (_format_sorting res ss1).2) := by
  refine ⟨?_, ?_, ?_, ?_, ?_⟩
  · exact format_conditions_congr res pfx fs1 fs2
  · intro h
    simp only [_format_sorting]
    rw [formatSortingAux_congr res ss1 ss2 0 h]
  · intro h
    simp only [_format_pagination, List.map_map]
    exact congrArg (String.intercalate " OR ")
      (formatPagination_rules_congr res rs1 rs2 0 h)
  · intro i f hif hshape
    have := formatConditionsAux_mem_field res pfx fs1 0 i f hif hshape
    simpa [_format_conditions] using this
  · intro i sp his hshape
    have := formatSortingAux_mem_field res ss1 0 i sp his hshape
    simpa [_format_sorting] using this

theorem claim_C9_witness :
    [Filtr.mk "color" (Val.vStr "red") .EQ].map (fun f => (shapeOf resW f.field, f.op))
      = [Filtr.mk "size" (Val.vStr "XL") .EQ].map (fun f => (shapeOf resW f.field, f.op)) ∧
    (_format_conditions resW [Filtr.mk "color" (Val.vStr "red") .EQ] "filters").1
      = (_format_conditions resW [Filtr.mk "size" (Val.vStr "XL") .EQ] "filters").1 ∧
    ("filters" ++ "_field_" ++ toString 0, Val.vStr "color")
      ∈ (_format_conditions resW [Filtr.mk "color" (Val.vStr "red") .EQ] "filters").2 :=
  ⟨by decide,
   (claim_C9_renderers resW "filters"
      [Filtr.mk "color" (Val.vStr "red") .EQ] [Filtr.mk "size" (Val.vStr "XL") .EQ]
      [] [] [] []).1 (by decide),
   (claim_C9_renderers resW "filters"
      [Filtr.mk "color" (Val.vStr "red") .EQ] [Filtr.mk "size" (Val.vStr "XL") .EQ]
      [] [] [] []).2.2.2.1 0 (Filtr.mk "color" (Val.vStr "red") .EQ) rfl (by decide)⟩

end Cliquet
